import Mathlib

/-
Verification of the Nagel-Schreckenberg traffic automaton in src/main.py.

The lattice is a fixed-length list of integer cells: the sentinel -1
(NSEMPTY) marks an empty cell, and a value in 0..vmax marks a vehicle at
that speed.  One time step is two synchronous passes over the lattice:
a speed pass (NewspeedRule.rule) followed by a movement pass
(MovementRule.rule).  The per-cell random slowdown draw
(random.random() < p) is abstracted as a Boolean oracle indexed by cell
address, one oracle per pass.

The neighborhood layout of the underlying cage.RadialMap is modelled from
the spec (section 3): for radius vmax the neighbor list alternates ahead
and behind addresses at increasing distance, nearest first, with
wraparound addressing, so even indices are the cells in front and odd
indices the cells behind -- the convention the populate methods of the
two rule classes rely on.  The synchronous commit discipline of
cage.SynchronousAutomaton.update is likewise modelled from the spec
(section 4.4): every address is evaluated against the untouched input
lattice and the results are committed together.
-/

namespace NaSch

/-- Sentinel value for an empty cell (NSEMPTY in src/main.py). -/
def NSEMPTY : Int := -1

/-- Reads the cell at an arbitrary integer address with wraparound,
embedding the periodic addressing of the cage map (spec section 4.1:
`get` never fails, all integer addresses are valid modulo the length). -/
def cellAt (lat : List Int) (i : Int) : Int :=
  lat.getD (i % (lat.length : Int)).toNat NSEMPTY

/-- Counts the leading NSEMPTY entries of a list: the value `dist`
computed by the gap loop of NewspeedRule.rule (src/main.py lines 68-78),
which walks the ahead cells nearest first and stops at the first
non-empty one. -/
def gapCount : List Int → Nat
  | [] => 0
  | c :: rest => if c = NSEMPTY then gapCount rest + 1 else 0

/-- Embeds NewspeedRule.rule (src/main.py lines 56-86).  The table is the
current cell followed by the ahead cells nearest first, exactly as
NewspeedRule.populate builds it; `slow` is the outcome of the random draw
`random.random() < self.p` for this cell. -/
def newspeedRule (vmax : Nat) (slow : Bool) (table : List Int) : Int :=
  match table with
  | [] => NSEMPTY
  | cur :: rest =>
    if cur = NSEMPTY then cur
    else
      let v1 := min (cur + 1) (vmax : Int)
      let v2 := min v1 (gapCount rest : Int)
      if slow then max (v2 - 1) 0 else v2

/-- Embeds the scan loop of MovementRule.rule (src/main.py lines 115-124):
walks the table with a running distance counter, skipping empty cells,
stopping with `np` at a speed-0 predecessor, and landing a predecessor
whose speed equals the distance. -/
def movementLoop : List Int → Int → Int → Int
  | [], _, np => np
  | i :: rest, dist, np =>
    if i = NSEMPTY then movementLoop rest (dist + 1) np
    else if i = 0 then np
    else if dist = i then i
    else movementLoop rest (dist + 1) np

/-- Embeds MovementRule.rule (src/main.py lines 108-125).  The table is
the current cell followed by the behind cells nearest first, exactly as
MovementRule.populate builds it; note the Python loop iterates over the
whole table including the current cell, starting its counter at 0. -/
def movementRule (table : List Int) : Int :=
  match table with
  | [] => NSEMPTY
  | cur :: _ =>
    if cur = 0 then cur
    else if 0 < cur then NSEMPTY
    else movementLoop table 0 cur

/-- Cells in front of address `a` at distances 1..vmax, nearest first:
the even-index radial neighbors selected by NewspeedRule.populate
(src/main.py lines 48-54). -/
def aheadCells (vmax : Nat) (lat : List Int) (a : Int) : List Int :=
  (List.range vmax).map (fun (d : Nat) => cellAt lat (a + ((d : Int) + 1)))

/-- Cells behind address `a` at distances 1..vmax, nearest first: the
odd-index radial neighbors selected by MovementRule.populate
(src/main.py lines 99-105). -/
def behindCells (vmax : Nat) (lat : List Int) (a : Int) : List Int :=
  (List.range vmax).map (fun (d : Nat) => cellAt lat (a - ((d : Int) + 1)))

/-- The table NewspeedRule.populate hands to NewspeedRule.rule. -/
def speedTable (vmax : Nat) (lat : List Int) (a : Int) : List Int :=
  cellAt lat a :: aheadCells vmax lat a

/-- The table MovementRule.populate hands to MovementRule.rule. -/
def moveTable (vmax : Nat) (lat : List Int) (a : Int) : List Int :=
  cellAt lat a :: behindCells vmax lat a

/-- One synchronous speed pass: every address is evaluated against the
untouched input lattice (first cage.SynchronousAutomaton.update call in
NaschAutomaton.update, src/main.py lines 156-157). -/
def speedPhase (vmax : Nat) (slow : Nat → Bool) (lat : List Int) : List Int :=
  (List.range lat.length).map
    (fun (a : Nat) => newspeedRule vmax (slow a) (speedTable vmax lat (a : Int)))

/-- One synchronous movement pass (second cage.SynchronousAutomaton.update
call in NaschAutomaton.update, src/main.py lines 158-159). -/
def movePhase (vmax : Nat) (lat : List Int) : List Int :=
  (List.range lat.length).map (fun (a : Nat) => movementRule (moveTable vmax lat (a : Int)))

/-- Embeds NaschAutomaton.update (src/main.py lines 155-159): the speed
pass followed by the movement pass. -/
def update (vmax : Nat) (slow : Nat → Bool) (lat : List Int) : List Int :=
  movePhase vmax (speedPhase vmax slow lat)

/-- Iterates `update`; `slows n` is the random-draw oracle of step `n`. -/
def updates (vmax : Nat) (slows : Nat → Nat → Bool) : Nat → List Int → List Int
  | 0, lat => lat
  | n + 1, lat => updates vmax slows n (update vmax (slows n) lat)

/-- Number of occupied cells (cells holding a value at least 0). -/
def occCount (lat : List Int) : Nat :=
  lat.countP (fun c => decide (0 ≤ c))

/-- Every cell is the empty sentinel or a speed in 0..vmax. -/
def Valid (vmax : Nat) (lat : List Int) : Prop :=
  ∀ c ∈ lat, c = NSEMPTY ∨ (0 ≤ c ∧ c ≤ (vmax : Int))

/-- Invariant of the lattice right after a speed pass: every vehicle has
a speed at most vmax and smaller than the ring length, and the cells it
will traverse, up to its speed ahead, are empty. -/
def GapOK (vmax : Nat) (lat : List Int) : Prop :=
  ∀ i : Int, 0 ≤ cellAt lat i →
    cellAt lat i ≤ (vmax : Int) ∧ cellAt lat i < (lat.length : Int) ∧
    ∀ k : Int, 1 ≤ k → k ≤ cellAt lat i → cellAt lat (i + k) = NSEMPTY

/-- States the movement-phase cell behavior exactly as the specification
section 4.3 and the claim describe it: scan the behind cells with a
distance counter starting at 1, land a predecessor whose positive speed
equals the distance, stop empty at a speed-0 predecessor, otherwise keep
scanning; `r` counts the remaining scan radius. -/
def claimScan (lat : List Int) (e : Int) : Nat → Nat → Int
  | _, 0 => NSEMPTY
  | d, r + 1 =>
    let s := cellAt lat (e - (d : Int))
    if s = 0 then NSEMPTY
    else if 0 < s ∧ s = (d : Int) then s
    else claimScan lat e (d + 1) r

/-- States the whole movement-phase cell update as the claim describes it:
speed 0 is unchanged, positive speed vacates, an empty cell scans behind
over the radius `vmax`. -/
def claimMove (vmax : Nat) (lat : List Int) (e : Int) : Int :=
  let c := cellAt lat e
  if c = 0 then c
  else if 0 < c then NSEMPTY
  else claimScan lat e 1 vmax

/-- Embeds the automaton state assembled by NaschAutomaton of src/main.py:
the map size, the stored rule parameters and the lattice. -/
structure NaschAutomaton where
  size : Nat
  vmax : Int
  p : ℚ
  move : Bool
  lattice : List Int

/-- Embeds NaschAutomaton of src/main.py, lines 150-153 together with the
rule constructors it calls (lines 43-46, 96-97, 130-133): the bodies only
build the map and store `vmax` and `p`; none of them contains a parameter
check or a raise statement.  The Option models the Python exception
channel: `none` would be a raised error, and no code path produces it.
The all-empty initial lattice is the background fill of the map, modelled
from the spec (section 6: default all Empty). -/
def NaschAutomaton.init (size : Nat) (vmax : Int) (p : ℚ) : Option NaschAutomaton :=
  some ⟨size, vmax, p, false, List.replicate size NSEMPTY⟩

section Lemmas

/-- Distillation of the validity invariant at the level of `cellAt`. -/
lemma valid_cellAt {vmax : Nat} {lat : List Int} (h : Valid vmax lat) (i : Int) :
    cellAt lat i = NSEMPTY ∨ (0 ≤ cellAt lat i ∧ cellAt lat i ≤ (vmax : Int)) := by
  unfold cellAt
  by_cases hlt : (i % (lat.length : Int)).toNat < lat.length
  · rw [List.getD_eq_getElem _ _ hlt]
    exact h _ (lat.getElem_mem hlt)
  · rw [List.getD_eq_default _ _ (Nat.le_of_not_lt hlt)]
    exact Or.inl rfl

lemma cellAt_mem_or_empty (lat : List Int) (i : Int) :
    cellAt lat i = NSEMPTY ∨ cellAt lat i ∈ lat := by
  unfold cellAt
  by_cases hlt : (i % (lat.length : Int)).toNat < lat.length
  · rw [List.getD_eq_getElem _ _ hlt]
    exact Or.inr (lat.getElem_mem hlt)
  · rw [List.getD_eq_default _ _ (Nat.le_of_not_lt hlt)]
    exact Or.inl rfl

lemma toNat_emod_lt {L : Nat} (hL : 0 < L) (x : Int) : (x % (L : Int)).toNat < L := by
  have hne : (L : Int) ≠ 0 := by exact_mod_cast hL.ne'
  have h0 : 0 ≤ x % (L : Int) := Int.emod_nonneg x hne
  have h1 : x % (L : Int) < (L : Int) := Int.emod_lt_of_pos x (by exact_mod_cast hL)
  omega

lemma coe_toNat_emod {L : Nat} (hL : 0 < L) (x : Int) :
    (((x % (L : Int)).toNat : Int)) = x % (L : Int) := by
  have hne : (L : Int) ≠ 0 := by exact_mod_cast hL.ne'
  exact Int.toNat_of_nonneg (Int.emod_nonneg x hne)

/-- Reading a cell only depends on the address modulo the length. -/
lemma cellAt_congr {lat : List Int} {i j : Int}
    (h : i % (lat.length : Int) = j % (lat.length : Int)) : cellAt lat i = cellAt lat j := by
  unfold cellAt
  rw [h]

lemma add_emod_congr {L : Int} {x y : Int} (t : Int) (h : x % L = y % L) :
    (x + t) % L = (y + t) % L := by
  rw [Int.add_emod, h, ← Int.add_emod]

lemma sub_emod_congr {L : Int} {x y : Int} (t : Int) (h : x % L = y % L) :
    (x - t) % L = (y - t) % L := by
  rw [Int.sub_emod, h, ← Int.sub_emod]

lemma emod_emod_self {L : Int} (x : Int) : (x % L) % L = x % L :=
  Int.emod_emod_of_dvd x dvd_rfl

lemma cellAt_add_length (lat : List Int) (i : Int) :
    cellAt lat (i + (lat.length : Int)) = cellAt lat i := by
  apply cellAt_congr
  have : i + (lat.length : Int) = i + (lat.length : Int) * 1 := by ring
  rw [this, Int.add_mul_emod_self_left]

lemma map_range_ext {n : Nat} (f g : Nat → Int) (h : ∀ k, k < n → f k = g k) :
    (List.range n).map f = (List.range n).map g := by
  apply List.ext_getElem (by simp)
  intro k h1 h2
  simp only [List.getElem_map, List.getElem_range]
  exact h k (by simpa using h1)

/-- Reading a synchronous pass, built as a map over all addresses, at an
arbitrary wrapped address. -/
lemma cellAt_map_range (f : Nat → Int) {n : Nat} (hn : 0 < n) (i : Int) :
    cellAt ((List.range n).map f) i = f ((i % (n : Int)).toNat) := by
  have hlen : ((List.range n).map f).length = n := by simp
  have hlt : (i % (n : Int)).toNat < n := toNat_emod_lt hn i
  unfold cellAt
  rw [hlen, List.getD_eq_getElem _ _ (by simpa [hlen] using hlt)]
  simp

lemma gapCount_le_length (l : List Int) : gapCount l ≤ l.length := by
  induction l with
  | nil => simp [gapCount]
  | cons c rest ih =>
    by_cases h : c = NSEMPTY <;> simp [gapCount, h] <;> omega

lemma getD_empty_of_lt_gapCount {l : List Int} {k : Nat} (hk : k < gapCount l) :
    l.getD k 0 = NSEMPTY := by
  induction l generalizing k with
  | nil => simp [gapCount] at hk
  | cons c rest ih =>
    by_cases h : c = NSEMPTY
    · cases k with
      | zero => simpa using h
      | succ k => exact ih (by simpa [gapCount, h] using hk)
    · simp [gapCount, h] at hk

lemma gapCount_le_of_getD_ne {l : List Int} {k : Nat} (hk : k < l.length)
    (h : l.getD k 0 ≠ NSEMPTY) : gapCount l ≤ k := by
  by_contra hcon
  exact h (getD_empty_of_lt_gapCount (Nat.lt_of_not_le hcon))

lemma getD_stop_of_gapCount_lt {l : List Int} (h : gapCount l < l.length) :
    l.getD (gapCount l) 0 ≠ NSEMPTY := by
  induction l with
  | nil => simp at h
  | cons c rest ih =>
    by_cases hc : c = NSEMPTY
    · have h' : gapCount rest < rest.length := by simpa [gapCount, hc] using h
      simpa [gapCount, hc] using ih h'
    · simpa [gapCount, hc] using hc

lemma aheadCells_length (vmax : Nat) (lat : List Int) (a : Int) :
    (aheadCells vmax lat a).length = vmax := by
  unfold aheadCells
  rw [List.length_map, List.length_range]

lemma behindCells_length (vmax : Nat) (lat : List Int) (a : Int) :
    (behindCells vmax lat a).length = vmax := by
  unfold behindCells
  rw [List.length_map, List.length_range]

lemma aheadCells_getD {vmax : Nat} (lat : List Int) (a : Int) {k : Nat} (hk : k < vmax) :
    (aheadCells vmax lat a).getD k 0 = cellAt lat (a + ((k : Int) + 1)) := by
  have hk' : k < (aheadCells vmax lat a).length := by
    rw [aheadCells_length]; exact hk
  rw [List.getD_eq_getElem _ _ hk']
  unfold aheadCells
  rw [List.getElem_map, List.getElem_range]

lemma behindCells_getD {vmax : Nat} (lat : List Int) (a : Int) {k : Nat} (hk : k < vmax) :
    (behindCells vmax lat a).getD k 0 = cellAt lat (a - ((k : Int) + 1)) := by
  have hk' : k < (behindCells vmax lat a).length := by
    rw [behindCells_length]; exact hk
  rw [List.getD_eq_getElem _ _ hk']
  unfold behindCells
  rw [List.getElem_map, List.getElem_range]

lemma newspeedRule_empty (vmax : Nat) (slow : Bool) (rest : List Int) :
    newspeedRule vmax slow (NSEMPTY :: rest) = NSEMPTY := by
  simp [newspeedRule]

lemma newspeedRule_occ (vmax : Nat) (slow : Bool) {cur : Int} (rest : List Int) (h : 0 ≤ cur) :
    newspeedRule vmax slow (cur :: rest) =
      if slow then max (min (min (cur + 1) (vmax : Int)) (gapCount rest : Int) - 1) 0
      else min (min (cur + 1) (vmax : Int)) (gapCount rest : Int) := by
  have hne : cur ≠ NSEMPTY := by unfold NSEMPTY; omega
  simp [newspeedRule, hne]

lemma newspeedRule_occ_bounds (vmax : Nat) (slow : Bool) {cur : Int} (rest : List Int)
    (h : 0 ≤ cur) :
    0 ≤ newspeedRule vmax slow (cur :: rest) ∧
    newspeedRule vmax slow (cur :: rest) ≤ (vmax : Int) ∧
    newspeedRule vmax slow (cur :: rest) ≤ (gapCount rest : Int) := by
  rw [newspeedRule_occ vmax slow rest h]
  have hv : (0 : Int) ≤ (vmax : Int) := Int.natCast_nonneg _
  have hg : (0 : Int) ≤ (gapCount rest : Int) := Int.natCast_nonneg _
  have hm1 : min (min (cur + 1) (vmax : Int)) (gapCount rest : Int) ≤ (vmax : Int) :=
    le_trans (min_le_left _ _) (min_le_right _ _)
  have hm2 : min (min (cur + 1) (vmax : Int)) (gapCount rest : Int) ≤ (gapCount rest : Int) :=
    min_le_right _ _
  have hm0 : (0 : Int) ≤ min (min (cur + 1) (vmax : Int)) (gapCount rest : Int) :=
    le_min (le_min (by omega) hv) hg
  cases slow with
  | false =>
    rw [if_neg Bool.false_ne_true]
    exact ⟨hm0, hm1, hm2⟩
  | true =>
    rw [if_pos rfl]
    exact ⟨le_max_right _ _, max_le (by omega) hv, max_le (by omega) hg⟩

lemma speedPhase_length (vmax : Nat) (slow : Nat → Bool) (lat : List Int) :
    (speedPhase vmax slow lat).length = lat.length := by
  unfold speedPhase
  rw [List.length_map, List.length_range]

lemma movePhase_length (vmax : Nat) (lat : List Int) :
    (movePhase vmax lat).length = lat.length := by
  unfold movePhase
  rw [List.length_map, List.length_range]

lemma update_length (vmax : Nat) (slow : Nat → Bool) (lat : List Int) :
    (update vmax slow lat).length = lat.length := by
  unfold update
  rw [movePhase_length, speedPhase_length]

lemma speedTable_norm (vmax : Nat) (lat : List Int) (hL : 0 < lat.length) (i : Int) :
    speedTable vmax lat (((i % (lat.length : Int)).toNat : Int)) = speedTable vmax lat i := by
  have hcoe := coe_toNat_emod hL i
  unfold speedTable
  have hhead : cellAt lat (((i % (lat.length : Int)).toNat : Int)) = cellAt lat i :=
    cellAt_congr (by rw [hcoe, emod_emod_self])
  have htail : aheadCells vmax lat (((i % (lat.length : Int)).toNat : Int))
      = aheadCells vmax lat i := by
    unfold aheadCells
    apply map_range_ext
    intro k _
    exact cellAt_congr (add_emod_congr _ (by rw [hcoe, emod_emod_self]))
  rw [hhead, htail]

lemma moveTable_norm (vmax : Nat) (lat : List Int) (hL : 0 < lat.length) (i : Int) :
    moveTable vmax lat (((i % (lat.length : Int)).toNat : Int)) = moveTable vmax lat i := by
  have hcoe := coe_toNat_emod hL i
  unfold moveTable
  have hhead : cellAt lat (((i % (lat.length : Int)).toNat : Int)) = cellAt lat i :=
    cellAt_congr (by rw [hcoe, emod_emod_self])
  have htail : behindCells vmax lat (((i % (lat.length : Int)).toNat : Int))
      = behindCells vmax lat i := by
    unfold behindCells
    apply map_range_ext
    intro k _
    exact cellAt_congr (sub_emod_congr _ (by rw [hcoe, emod_emod_self]))
  rw [hhead, htail]

/-- Reading one cell of the speed pass: the rule applied to the table at
that address, with the slow draw of the wrapped address. -/
lemma cellAt_speedPhase (vmax : Nat) (slow : Nat → Bool) (lat : List Int)
    (hL : 0 < lat.length) (i : Int) :
    cellAt (speedPhase vmax slow lat) i
      = newspeedRule vmax (slow ((i % (lat.length : Int)).toNat)) (speedTable vmax lat i) := by
  unfold speedPhase
  rw [cellAt_map_range _ hL i, speedTable_norm vmax lat hL i]

/-- Reading one cell of the movement pass. -/
lemma cellAt_movePhase (vmax : Nat) (lat : List Int) (hL : 0 < lat.length) (i : Int) :
    cellAt (movePhase vmax lat) i = movementRule (moveTable vmax lat i) := by
  unfold movePhase
  rw [cellAt_map_range _ hL i, moveTable_norm vmax lat hL i]

lemma cellAt_speedPhase_empty {vmax : Nat} {slow : Nat → Bool} {lat : List Int}
    (hL : 0 < lat.length) {i : Int} (h : cellAt lat i = NSEMPTY) :
    cellAt (speedPhase vmax slow lat) i = NSEMPTY := by
  rw [cellAt_speedPhase vmax slow lat hL i]
  unfold speedTable
  rw [h]
  exact newspeedRule_empty _ _ _

lemma cellAt_speedPhase_occ {vmax : Nat} {slow : Nat → Bool} {lat : List Int}
    (hL : 0 < lat.length) {i : Int} (h : 0 ≤ cellAt lat i) :
    0 ≤ cellAt (speedPhase vmax slow lat) i ∧
    cellAt (speedPhase vmax slow lat) i ≤ (vmax : Int) ∧
    cellAt (speedPhase vmax slow lat) i ≤ (gapCount (aheadCells vmax lat i) : Int) := by
  rw [cellAt_speedPhase vmax slow lat hL i]
  exact newspeedRule_occ_bounds vmax _ _ h

/-- The speed pass changes no occupancy (given a valid input lattice). -/
lemma speedPhase_occ_iff {vmax : Nat} {slow : Nat → Bool} {lat : List Int}
    (hval : Valid vmax lat) (hL : 0 < lat.length) (i : Int) :
    0 ≤ cellAt (speedPhase vmax slow lat) i ↔ 0 ≤ cellAt lat i := by
  constructor
  · intro hmid
    rcases valid_cellAt hval i with hc | hc
    · rw [cellAt_speedPhase_empty hL hc] at hmid
      exact absurd hmid (by unfold NSEMPTY; omega)
    · exact hc.1
  · intro hc
    exact (cellAt_speedPhase_occ hL hc).1

lemma speedPhase_valid (vmax : Nat) (slow : Nat → Bool) (lat : List Int)
    (hval : Valid vmax lat) : Valid vmax (speedPhase vmax slow lat) := by
  intro c hc
  unfold speedPhase at hc
  rw [List.mem_map] at hc
  obtain ⟨a, _, rfl⟩ := hc
  unfold speedTable
  rcases valid_cellAt hval (a : Int) with hd | hd
  · rw [hd, newspeedRule_empty]
    exact Or.inl rfl
  · have hb := newspeedRule_occ_bounds vmax (slow a) (aheadCells vmax lat (a : Int)) hd.1
    exact Or.inr ⟨hb.1, hb.2.1⟩

lemma movementLoop_mem (cells : List Int) :
    ∀ (dist np : Int), movementLoop cells dist np = np ∨ movementLoop cells dist np ∈ cells := by
  induction cells with
  | nil => intro dist np; exact Or.inl rfl
  | cons i rest ih =>
    intro dist np
    unfold movementLoop
    by_cases h1 : i = NSEMPTY
    · rw [if_pos h1]
      rcases ih (dist + 1) np with h | h
      · exact Or.inl h
      · exact Or.inr (List.mem_cons_of_mem _ h)
    · rw [if_neg h1]
      by_cases h2 : i = 0
      · rw [if_pos h2]; exact Or.inl rfl
      · rw [if_neg h2]
        by_cases h3 : dist = i
        · rw [if_pos h3]; exact Or.inr (List.mem_cons_self _ _)
        · rw [if_neg h3]
          rcases ih (dist + 1) np with h | h
          · exact Or.inl h
          · exact Or.inr (List.mem_cons_of_mem _ h)

lemma movementRule_mem (t : List Int) :
    movementRule t = NSEMPTY ∨ movementRule t ∈ t := by
  match t with
  | [] => exact Or.inl rfl
  | cur :: rest =>
    simp only [movementRule]
    by_cases h1 : cur = 0
    · rw [if_pos h1]; exact Or.inr (List.mem_cons_self _ _)
    · rw [if_neg h1]
      by_cases h2 : 0 < cur
      · rw [if_pos h2]; exact Or.inl rfl
      · rw [if_neg h2]
        rcases movementLoop_mem (cur :: rest) 0 cur with h | h
        · exact Or.inr (by rw [h]; exact List.mem_cons_self _ _)
        · exact Or.inr h

lemma moveTable_valid {vmax : Nat} {lat : List Int} (hval : Valid vmax lat) (i : Int) :
    ∀ c ∈ moveTable vmax lat i, c = NSEMPTY ∨ (0 ≤ c ∧ c ≤ (vmax : Int)) := by
  intro c hc
  unfold moveTable at hc
  rcases List.mem_cons.mp hc with rfl | hc
  · exact valid_cellAt hval i
  · unfold behindCells at hc
    rw [List.mem_map] at hc
    obtain ⟨d, _, rfl⟩ := hc
    exact valid_cellAt hval _

lemma movePhase_valid (vmax : Nat) (lat : List Int) (hval : Valid vmax lat) :
    Valid vmax (movePhase vmax lat) := by
  intro c hc
  unfold movePhase at hc
  rw [List.mem_map] at hc
  obtain ⟨a, _, rfl⟩ := hc
  rcases movementRule_mem (moveTable vmax lat (a : Int)) with h | h
  · exact Or.inl h
  · exact moveTable_valid hval _ _ h

/-- The speed pass establishes the gap invariant needed by the movement
pass: each new speed is bounded by vmax and the ring length, and the
cells a vehicle will traverse are empty. -/
lemma speedPhase_gapOK (vmax : Nat) (slow : Nat → Bool) (lat : List Int)
    (hval : Valid vmax lat) : GapOK vmax (speedPhase vmax slow lat) := by
  intro i hocc
  rcases Nat.eq_zero_or_pos lat.length with hL | hL
  · exfalso
    have hnil : lat = [] := List.length_eq_zero.mp hL
    subst hnil
    have : cellAt (speedPhase vmax slow []) i = NSEMPTY := by
      unfold speedPhase cellAt NSEMPTY
      simp
    rw [this] at hocc
    exact absurd hocc (by unfold NSEMPTY; omega)
  · have hc : 0 ≤ cellAt lat i := (speedPhase_occ_iff hval hL i).mp hocc
    have hbounds := @cellAt_speedPhase_occ vmax slow lat hL i hc
    refine ⟨hbounds.2.1, ?_, ?_⟩
    · -- speed is smaller than the ring length
      rw [speedPhase_length]
      by_cases hcmp : vmax < lat.length
      · calc cellAt (speedPhase vmax slow lat) i ≤ (vmax : Int) := hbounds.2.1
          _ < (lat.length : Int) := by exact_mod_cast hcmp
      · -- radius reaches around the ring: the scan sees the vehicle itself
        have hLv : lat.length ≤ vmax := Nat.le_of_not_lt hcmp
        have hidx : lat.length - 1 < vmax := by omega
        have hgd : (aheadCells vmax lat i).getD (lat.length - 1) 0
            = cellAt lat (i + (((lat.length - 1 : Nat) : Int) + 1)) :=
          aheadCells_getD lat i hidx
        have hring : (((lat.length - 1 : Nat) : Int) + 1) = (lat.length : Int) := by omega
        rw [hring] at hgd
        rw [cellAt_add_length] at hgd
        have hne : (aheadCells vmax lat i).getD (lat.length - 1) 0 ≠ NSEMPTY := by
          rw [hgd]; unfold NSEMPTY; omega
        have hgap : gapCount (aheadCells vmax lat i) ≤ lat.length - 1 :=
          gapCount_le_of_getD_ne (by rw [aheadCells_length]; exact hidx) hne
        have hle := hbounds.2.2
        have : (gapCount (aheadCells vmax lat i) : Int) ≤ ((lat.length - 1 : Nat) : Int) := by
          exact_mod_cast hgap
        omega
    · -- the traversed cells are empty
      intro k hk1 hk2
      have hkg : k ≤ (gapCount (aheadCells vmax lat i) : Int) := le_trans hk2 hbounds.2.2
      have hkn1 : 1 ≤ k.toNat := by omega
      have hkng : k.toNat ≤ gapCount (aheadCells vmax lat i) := by omega
      have hklt : k.toNat - 1 < gapCount (aheadCells vmax lat i) := by omega
      have hvlen : gapCount (aheadCells vmax lat i) ≤ vmax := by
        have := gapCount_le_length (aheadCells vmax lat i)
        rwa [aheadCells_length] at this
      have hgd : (aheadCells vmax lat i).getD (k.toNat - 1) 0
          = cellAt lat (i + (((k.toNat - 1 : Nat) : Int) + 1)) :=
        aheadCells_getD lat i (by omega)
      have hcast : (((k.toNat - 1 : Nat) : Int) + 1) = k := by omega
      rw [hcast] at hgd
      have hemp : cellAt lat (i + k) = NSEMPTY := by
        rw [← hgd]
        exact getD_empty_of_lt_gapCount hklt
      exact cellAt_speedPhase_empty hL hemp

/-- The scan loop lands a predecessor whose speed equals its distance
when all nearer scanned cells are empty. -/
lemma movementLoop_lands (cells : List Int) :
    ∀ (d0 np : Int) (m : Nat), m < cells.length → 0 < d0 + (m : Int) →
      cells.getD m 0 = d0 + (m : Int) →
      (∀ k : Nat, k < m → cells.getD k 0 = NSEMPTY) →
      movementLoop cells d0 np = d0 + (m : Int) := by
  induction cells with
  | nil =>
    intro d0 np m hm _ _ _
    simp at hm
  | cons c rest ih =>
    intro d0 np m hm hpos hland hemp
    cases m with
    | zero =>
      have hc : c = d0 := by simpa using hland
      have hpos0 : 0 < d0 := by simpa using hpos
      unfold movementLoop
      rw [if_neg (by unfold NSEMPTY; omega), if_neg (by omega), if_pos hc.symm]
      simpa using hc
    | succ m' =>
      have hc : c = NSEMPTY := by
        have := hemp 0 (Nat.succ_pos m')
        simpa using this
      unfold movementLoop
      rw [if_pos hc]
      have hgoal : d0 + ((m' + 1 : Nat) : Int) = (d0 + 1) + (m' : Int) := by push_cast; ring
      rw [hgoal]
      refine ih (d0 + 1) np m' (by simpa using Nat.lt_of_succ_lt_succ hm) (by push_cast; omega)
        ?_ ?_
      · have := hland
        rw [List.getD_cons_succ] at this
        rw [this]
        push_cast
        ring
      · intro k hk
        have := hemp (k + 1) (Nat.succ_lt_succ hk)
        rwa [List.getD_cons_succ] at this

/-- The scan loop finds nothing when no scanned cell carries a positive
speed equal to its distance. -/
lemma movementLoop_stays (cells : List Int) :
    ∀ (d0 np : Int), 0 ≤ d0 →
      (∀ k : Nat, k < cells.length → cells.getD k 0 ≤ 0 ∨ cells.getD k 0 ≠ d0 + (k : Int)) →
      movementLoop cells d0 np = np := by
  induction cells with
  | nil => intro d0 np _ _; rfl
  | cons c rest ih =>
    intro d0 np hd0 hno
    have hshift : ∀ k : Nat, k < rest.length →
        rest.getD k 0 ≤ 0 ∨ rest.getD k 0 ≠ (d0 + 1) + (k : Int) := by
      intro k hk
      have h := hno (k + 1) (by simp; omega)
      rw [List.getD_cons_succ] at h
      rcases h with h | h
      · exact Or.inl h
      · refine Or.inr fun he => h ?_
        rw [he]
        push_cast
        ring
    unfold movementLoop
    by_cases h1 : c = NSEMPTY
    · rw [if_pos h1]
      exact ih (d0 + 1) np (by omega) hshift
    · rw [if_neg h1]
      by_cases h2 : c = 0
      · rw [if_pos h2]
      · rw [if_neg h2]
        have h3 : ¬d0 = c := by
          have h0 := hno 0 (by simp)
          simp only [List.getD_cons_zero] at h0
          rcases h0 with h0 | h0
          · unfold NSEMPTY at h1; omega
          · simp only [Nat.cast_zero, add_zero] at h0
            omega
        rw [if_neg h3]
        exact ih (d0 + 1) np (by omega) hshift

lemma cellAt_movePhase_zero {vmax : Nat} {lat : List Int} (hL : 0 < lat.length)
    {i : Int} (h : cellAt lat i = 0) : cellAt (movePhase vmax lat) i = 0 := by
  rw [cellAt_movePhase vmax lat hL i]
  unfold moveTable
  simp only [movementRule]
  rw [h, if_pos rfl]

lemma cellAt_movePhase_pos {vmax : Nat} {lat : List Int} (hL : 0 < lat.length)
    {i : Int} (h : 0 < cellAt lat i) : cellAt (movePhase vmax lat) i = NSEMPTY := by
  rw [cellAt_movePhase vmax lat hL i]
  unfold moveTable
  simp only [movementRule]
  rw [if_neg (by omega), if_pos h]

/-- Under the gap invariant, a vehicle of speed d behind an empty cell at
exactly distance d lands there. -/
lemma cellAt_movePhase_lands {vmax : Nat} {lat : List Int} (hG : GapOK vmax lat)
    (hL : 0 < lat.length) (e : Int) (d : Nat) (hd1 : 1 ≤ d) (hdv : d ≤ vmax)
    (hw : cellAt lat (e - (d : Int)) = (d : Int)) :
    cellAt (movePhase vmax lat) e = (d : Int) := by
  have hGd := hG (e - (d : Int)) (by rw [hw]; exact Int.natCast_nonneg d)
  have hempty : cellAt lat e = NSEMPTY := by
    have h := hGd.2.2 (d : Int) (by exact_mod_cast hd1) (le_of_eq hw.symm)
    have harith : (e - (d : Int)) + (d : Int) = e := by ring
    rwa [harith] at h
  rw [cellAt_movePhase vmax lat hL e]
  unfold moveTable
  rw [hempty]
  simp only [movementRule]
  rw [if_neg (by unfold NSEMPTY; omega), if_neg (by unfold NSEMPTY; omega)]
  unfold movementLoop
  rw [if_pos rfl]
  have hlen : (behindCells vmax lat e).length = vmax := behindCells_length vmax lat e
  have hstep := movementLoop_lands (behindCells vmax lat e) (0 + 1) NSEMPTY (d - 1)
    (by rw [hlen]; omega) (by push_cast; omega) ?_ ?_
  · rw [hstep]
    push_cast
    omega
  · rw [behindCells_getD lat e (show d - 1 < vmax by omega)]
    have harg : e - (((d - 1 : Nat) : Int) + 1) = e - (d : Int) := by push_cast [hd1]; ring_nf
    rw [harg, hw]
    push_cast
    omega
  · intro k hk
    rw [behindCells_getD lat e (show k < vmax by omega)]
    have h := hGd.2.2 ((d : Int) - ((k : Int) + 1)) (by push_cast; omega)
      (by rw [hw]; push_cast; omega)
    have harith : (e - (d : Int)) + ((d : Int) - ((k : Int) + 1)) = e - ((k : Int) + 1) := by
      ring
    rwa [harith] at h

/-- A cell that no scanned predecessor can land in stays empty. -/
lemma cellAt_movePhase_stays {vmax : Nat} {lat : List Int} (hL : 0 < lat.length)
    (e : Int) (he : cellAt lat e = NSEMPTY)
    (hno : ∀ d : Nat, 1 ≤ d → d ≤ vmax → cellAt lat (e - (d : Int)) ≠ (d : Int)) :
    cellAt (movePhase vmax lat) e = NSEMPTY := by
  rw [cellAt_movePhase vmax lat hL e]
  unfold moveTable
  rw [he]
  simp only [movementRule]
  rw [if_neg (by unfold NSEMPTY; omega), if_neg (by unfold NSEMPTY; omega)]
  unfold movementLoop
  rw [if_pos rfl]
  apply movementLoop_stays (behindCells vmax lat e) (0 + 1) NSEMPTY (by omega)
  intro k hk
  rw [behindCells_length] at hk
  rw [behindCells_getD lat e hk]
  by_cases hc : cellAt lat (e - ((k : Int) + 1)) = (0 : Int) + 1 + (k : Int)
  · exfalso
    apply hno (k + 1) (by omega) (by omega)
    have harg : e - ((k + 1 : Nat) : Int) = e - ((k : Int) + 1) := by push_cast; ring
    rw [harg, hc]
    push_cast
    ring
  · exact Or.inr hc

/-- Under the gap invariant at most one vehicle can land in a given cell. -/
lemma landing_unique {vmax : Nat} {lat : List Int} (hG : GapOK vmax lat) (e : Int)
    {d1 d2 : Nat} (h1 : 1 ≤ d1) (h2 : 1 ≤ d2)
    (hw1 : cellAt lat (e - (d1 : Int)) = (d1 : Int))
    (hw2 : cellAt lat (e - (d2 : Int)) = (d2 : Int)) : d1 = d2 := by
  rcases lt_trichotomy d1 d2 with h | h | h
  · exfalso
    have hGd := hG (e - (d2 : Int)) (by rw [hw2]; exact Int.natCast_nonneg d2)
    have hemp := hGd.2.2 ((d2 : Int) - (d1 : Int)) (by push_cast; omega)
      (by rw [hw2]; push_cast; omega)
    have harith : (e - (d2 : Int)) + ((d2 : Int) - (d1 : Int)) = e - (d1 : Int) := by ring
    rw [harith, hw1] at hemp
    unfold NSEMPTY at hemp
    omega
  · exact h
  · exfalso
    have hGd := hG (e - (d1 : Int)) (by rw [hw1]; exact Int.natCast_nonneg d1)
    have hemp := hGd.2.2 ((d1 : Int) - (d2 : Int)) (by push_cast; omega)
      (by rw [hw1]; push_cast; omega)
    have harith : (e - (d1 : Int)) + ((d1 : Int) - (d2 : Int)) = e - (d2 : Int) := by ring
    rw [harith, hw2] at hemp
    unfold NSEMPTY at hemp
    omega

lemma cellAt_wrap (lat : List Int) (hL : 0 < lat.length) (x : Int) :
    cellAt lat (((x % (lat.length : Int)).toNat : Int)) = cellAt lat x := by
  apply cellAt_congr
  rw [coe_toNat_emod hL x, emod_emod_self]

/-- Counting occupied cells equals counting the occupied addresses. -/
lemma occCount_eq_card (l : List Int) :
    occCount l = ((Finset.range l.length).filter (fun a => 0 ≤ l.getD a NSEMPTY)).card := by
  induction l with
  | nil => simp [occCount]
  | cons c t ih =>
    unfold occCount at ih ⊢
    rw [List.countP_cons, ih, List.length_cons, Finset.card_filter, Finset.card_filter,
      Finset.sum_range_succ']
    simp only [List.getD_cons_succ, List.getD_cons_zero, decide_eq_true_eq]

lemma occCount_eq_card_cellAt (l : List Int) :
    occCount l = ((Finset.range l.length).filter (fun (a : Nat) => 0 ≤ cellAt l (a : Int))).card := by
  rw [occCount_eq_card]
  apply congrArg
  apply Finset.filter_congr
  intro a ha
  rw [Finset.mem_range] at ha
  have hcell : cellAt l (a : Int) = l.getD a NSEMPTY := by
    unfold cellAt
    have h1 : (a : Int) % (l.length : Int) = (a : Int) :=
      Int.emod_eq_of_lt (Int.natCast_nonneg a) (by exact_mod_cast ha)
    rw [h1]
    simp
  rw [hcell]

/-- Core of conservation: under validity, the movement pass following a
speed pass has exactly as many occupied addresses as before, via the
bijection sending each vehicle to its landing address. -/
lemma movePhase_card_occ (vmax : Nat) (slow : Nat → Bool) (lat : List Int)
    (hval : Valid vmax lat) (hL : 0 < lat.length) :
    ((Finset.range lat.length).filter
        (fun (a : Nat) => 0 ≤ cellAt (speedPhase vmax slow lat) (a : Int))).card
      = ((Finset.range lat.length).filter
        (fun (e : Nat) => 0 ≤ cellAt (movePhase vmax (speedPhase vmax slow lat)) (e : Int))).card := by
  set mid := speedPhase vmax slow lat with hmiddef
  have hmidlen : mid.length = lat.length := speedPhase_length vmax slow lat
  have hLmid : 0 < mid.length := by omega
  have hvalmid : Valid vmax mid := speedPhase_valid vmax slow lat hval
  have hG : GapOK vmax mid := speedPhase_gapOK vmax slow lat hval
  have hLne : (lat.length : Int) ≠ 0 := by exact_mod_cast hL.ne'
  have hwrapmid : ∀ x : Int, cellAt mid (((x % (lat.length : Int)).toNat : Int)) = cellAt mid x := by
    intro x
    rw [← hmidlen]
    exact cellAt_wrap mid hLmid x
  have hwrappost : ∀ x : Int,
      cellAt (movePhase vmax mid) (((x % (lat.length : Int)).toNat : Int))
        = cellAt (movePhase vmax mid) x := by
    intro x
    have hplen : (movePhase vmax mid).length = lat.length := by
      rw [movePhase_length]; exact hmidlen
    rw [← hplen]
    exact cellAt_wrap (movePhase vmax mid) (by omega) x
  have hcongrmid : ∀ x y : Int, x % (lat.length : Int) = y % (lat.length : Int) →
      cellAt mid x = cellAt mid y := by
    intro x y h
    exact cellAt_congr (by rw [hmidlen]; exact h)
  apply Finset.card_bij
    (fun (a : Nat) _ => (((a : Int) + cellAt mid (a : Int)) % (lat.length : Int)).toNat)
  · -- each vehicle lands on an occupied address
    intro a ha
    rw [Finset.mem_filter, Finset.mem_range] at ha
    obtain ⟨haL, hocc⟩ := ha
    rw [Finset.mem_filter, Finset.mem_range]
    refine ⟨toNat_emod_lt hL _, ?_⟩
    rw [hwrappost]
    rcases eq_or_lt_of_le hocc with hz | hp
    · have h0 : (a : Int) + cellAt mid (a : Int) = (a : Int) := by omega
      rw [h0, cellAt_movePhase_zero hLmid hz.symm]
    · have hvle : cellAt mid (a : Int) ≤ (vmax : Int) := (hG (a : Int) hocc).1
      have hw : cellAt mid (((a : Int) + cellAt mid (a : Int))
          - (((cellAt mid (a : Int)).toNat : Int))) = (((cellAt mid (a : Int)).toNat : Int)) := by
        have harg : ((a : Int) + cellAt mid (a : Int))
            - (((cellAt mid (a : Int)).toNat : Int)) = (a : Int) := by omega
        rw [harg]
        omega
      have hland := cellAt_movePhase_lands hG hLmid ((a : Int) + cellAt mid (a : Int))
        (cellAt mid (a : Int)).toNat (by omega) (by omega) hw
      rw [hland]
      omega
  · -- landing addresses are distinct
    intro a1 ha1 a2 ha2 heq
    rw [Finset.mem_filter, Finset.mem_range] at ha1 ha2
    obtain ⟨h1L, hocc1⟩ := ha1
    obtain ⟨h2L, hocc2⟩ := ha2
    have g1 : 0 ≤ ((a1 : Int) + cellAt mid (a1 : Int)) % (lat.length : Int) :=
      Int.emod_nonneg _ hLne
    have g2 : 0 ≤ ((a2 : Int) + cellAt mid (a2 : Int)) % (lat.length : Int) :=
      Int.emod_nonneg _ hLne
    have hmod : ((a1 : Int) + cellAt mid (a1 : Int)) % (lat.length : Int)
        = ((a2 : Int) + cellAt mid (a2 : Int)) % (lat.length : Int) := by omega
    have hself : ∀ b : Nat, b < lat.length → (b : Int) % (lat.length : Int) = (b : Int) := by
      intro b hb
      exact Int.emod_eq_of_lt (Int.natCast_nonneg b) (by exact_mod_cast hb)
    rcases eq_or_lt_of_le hocc1 with hz1 | hp1 <;> rcases eq_or_lt_of_le hocc2 with hz2 | hp2
    · -- both stay put
      have h01 : (a1 : Int) + cellAt mid (a1 : Int) = (a1 : Int) := by omega
      have h02 : (a2 : Int) + cellAt mid (a2 : Int) = (a2 : Int) := by omega
      rw [h01, h02, hself a1 h1L, hself a2 h2L] at hmod
      exact_mod_cast hmod
    · -- a stayer cannot share the landing cell of a mover
      exfalso
      have h01 : (a1 : Int) + cellAt mid (a1 : Int) = (a1 : Int) := by omega
      rw [h01] at hmod
      have hcell := hcongrmid _ _ hmod
      have hemp := (hG (a2 : Int) hocc2).2.2 (cellAt mid (a2 : Int)) (by omega) le_rfl
      rw [hcell, hemp] at hz1
      unfold NSEMPTY at hz1
      omega
    · exfalso
      have h02 : (a2 : Int) + cellAt mid (a2 : Int) = (a2 : Int) := by omega
      rw [h02] at hmod
      have hcell := hcongrmid _ _ hmod.symm
      have hemp := (hG (a1 : Int) hocc1).2.2 (cellAt mid (a1 : Int)) (by omega) le_rfl
      rw [hcell, hemp] at hz2
      unfold NSEMPTY at hz2
      omega
    · -- two movers landing together must be the same vehicle
      have hw1 : cellAt mid (((a1 : Int) + cellAt mid (a1 : Int))
          - (((cellAt mid (a1 : Int)).toNat : Int))) = (((cellAt mid (a1 : Int)).toNat : Int)) := by
        have harg : ((a1 : Int) + cellAt mid (a1 : Int))
            - (((cellAt mid (a1 : Int)).toNat : Int)) = (a1 : Int) := by omega
        rw [harg]; omega
      have hw2 : cellAt mid (((a1 : Int) + cellAt mid (a1 : Int))
          - (((cellAt mid (a2 : Int)).toNat : Int))) = (((cellAt mid (a2 : Int)).toNat : Int)) := by
        have hsub : (((a1 : Int) + cellAt mid (a1 : Int)) - cellAt mid (a2 : Int))
            % (lat.length : Int) = ((a2 : Int)) % (lat.length : Int) := by
          have := sub_emod_congr (L := (lat.length : Int)) (cellAt mid (a2 : Int)) hmod
          have harg : ((a2 : Int) + cellAt mid (a2 : Int)) - cellAt mid (a2 : Int) = (a2 : Int) := by
            ring
          rwa [harg] at this
        have hcast : (((cellAt mid (a2 : Int)).toNat : Int)) = cellAt mid (a2 : Int) := by omega
        rw [hcast]
        rw [hcongrmid _ _ hsub]
      have hdeq := landing_unique hG ((a1 : Int) + cellAt mid (a1 : Int))
        (by omega) (by omega) hw1 hw2
      have hveq : cellAt mid (a1 : Int) = cellAt mid (a2 : Int) := by omega
      rw [hveq] at hmod
      have hsub := sub_emod_congr (L := (lat.length : Int)) (cellAt mid (a2 : Int)) hmod
      have harg1 : ((a1 : Int) + cellAt mid (a2 : Int)) - cellAt mid (a2 : Int) = (a1 : Int) := by
        ring
      have harg2 : ((a2 : Int) + cellAt mid (a2 : Int)) - cellAt mid (a2 : Int) = (a2 : Int) := by
        ring
      rw [harg1, harg2, hself a1 h1L, hself a2 h2L] at hsub
      exact_mod_cast hsub
  · -- every occupied address after the movement pass receives some vehicle
    intro e he
    rw [Finset.mem_filter, Finset.mem_range] at he
    obtain ⟨heL, hocce⟩ := he
    rcases valid_cellAt hvalmid (e : Int) with hemp | hoc
    · -- an empty cell that became occupied has a lander
      by_cases hex : ∃ d : Nat, 1 ≤ d ∧ d ≤ vmax ∧ cellAt mid ((e : Int) - (d : Int)) = (d : Int)
      · obtain ⟨d, hd1, hdv, hw⟩ := hex
        refine ⟨(((e : Int) - (d : Int)) % (lat.length : Int)).toNat, ?_, ?_⟩
        · rw [Finset.mem_filter, Finset.mem_range]
          refine ⟨toNat_emod_lt hL _, ?_⟩
          rw [hwrapmid, hw]
          omega
        · show ((((((e : Int) - (d : Int)) % (lat.length : Int)).toNat : Int)
              + cellAt mid (((((e : Int) - (d : Int)) % (lat.length : Int)).toNat : Int)))
              % (lat.length : Int)).toNat = e
          rw [hwrapmid, hw]
          have hsum : (((((e : Int) - (d : Int)) % (lat.length : Int)).toNat : Int) + (d : Int))
              % (lat.length : Int) = (e : Int) % (lat.length : Int) := by
            have := add_emod_congr (L := (lat.length : Int)) ((d : Int))
              (show ((((e : Int) - (d : Int)) % (lat.length : Int)).toNat : Int)
                  % (lat.length : Int) = ((e : Int) - (d : Int)) % (lat.length : Int) by
                rw [coe_toNat_emod hL, emod_emod_self])
            have harg : ((e : Int) - (d : Int)) + (d : Int) = (e : Int) := by ring
            rwa [harg] at this
          rw [hsum, Int.emod_eq_of_lt (Int.natCast_nonneg e) (by exact_mod_cast heL)]
          omega
      · exfalso
        push_neg at hex
        have hstay := cellAt_movePhase_stays hLmid (e : Int) hemp
          (fun d h1 h2 => hex d h1 h2)
        rw [hstay] at hocce
        unfold NSEMPTY at hocce
        omega
    · rcases eq_or_lt_of_le hoc.1 with hz | hp
      · -- a stopped vehicle stays at its own address
        refine ⟨e, ?_, ?_⟩
        · rw [Finset.mem_filter, Finset.mem_range]
          exact ⟨heL, hoc.1⟩
        · show (((e : Int) + cellAt mid (e : Int)) % (lat.length : Int)).toNat = e
          have h0 : (e : Int) + cellAt mid (e : Int) = (e : Int) := by omega
          rw [h0, Int.emod_eq_of_lt (Int.natCast_nonneg e) (by exact_mod_cast heL)]
          omega
      · -- a moving vehicle leaves its cell empty, contradiction
        exfalso
        have := @cellAt_movePhase_pos vmax mid hLmid (e : Int) hp
        rw [this] at hocce
        unfold NSEMPTY at hocce
        omega

lemma updates_valid (vmax : Nat) (slows : Nat → Nat → Bool) :
    ∀ (n : Nat) (lat : List Int), Valid vmax lat → Valid vmax (updates vmax slows n lat)
  | 0, _, h => h
  | n + 1, lat, h =>
    updates_valid vmax slows n _
      (movePhase_valid vmax _ (speedPhase_valid vmax (slows n) lat h))

/-- A vehicle of new speed v moved by the movement pass is found at its
destination address, v cells ahead. -/
lemma cellAt_movePhase_dest {vmax : Nat} {lat : List Int} (hG : GapOK vmax lat)
    (hL : 0 < lat.length) (x : Int) (hocc : 0 ≤ cellAt lat x) :
    cellAt (movePhase vmax lat) (x + cellAt lat x) = cellAt lat x := by
  rcases eq_or_lt_of_le hocc with hz | hp
  · rw [← hz, add_zero]
    exact cellAt_movePhase_zero hL hz.symm
  · have hvle := (hG x hocc).1
    have hw : cellAt lat ((x + cellAt lat x) - (((cellAt lat x).toNat : Int)))
        = (((cellAt lat x).toNat : Int)) := by
      have harg : (x + cellAt lat x) - (((cellAt lat x).toNat : Int)) = x := by omega
      rw [harg]
      omega
    have hland := cellAt_movePhase_lands hG hL (x + cellAt lat x) (cellAt lat x).toNat
      (by omega) (by omega) hw
    rw [hland]
    omega

lemma map_range_succ (r : Nat) (f : Nat → Int) :
    (List.range (r + 1)).map f = f 0 :: (List.range r).map (fun k => f (k + 1)) := by
  rw [List.range_succ_eq_map, List.map_cons, List.map_map]
  rfl

/-- The source scan loop over the behind cells agrees with the scan the
spec describes, cell for cell. -/
lemma movementLoop_eq_claimScan (lat : List Int) (e : Int) :
    ∀ (r d : Nat), 1 ≤ d →
      movementLoop ((List.range r).map (fun (k : Nat) => cellAt lat (e - ((d + k : Nat) : Int))))
        (d : Int) NSEMPTY = claimScan lat e d r := by
  intro r
  induction r with
  | zero => intro d _; rfl
  | succ r ih =>
    intro d hd
    rw [map_range_succ]
    have htail : (List.range r).map
          (fun (k : Nat) => cellAt lat (e - ((d + (k + 1) : Nat) : Int)))
        = (List.range r).map
          (fun (k : Nat) => cellAt lat (e - (((d + 1) + k : Nat) : Int))) := by
      apply map_range_ext
      intro k _
      have harg : d + (k + 1) = (d + 1) + k := by omega
      rw [harg]
    rw [htail]
    have hd0 : ((d + 0 : Nat) : Int) = (d : Int) := by norm_num
    rw [hd0]
    have hcd : ((d : Int) + 1) = ((d + 1 : Nat) : Int) := by push_cast; ring
    have hstep : claimScan lat e d (r + 1)
        = if cellAt lat (e - (d : Int)) = 0 then NSEMPTY
          else if 0 < cellAt lat (e - (d : Int)) ∧ cellAt lat (e - (d : Int)) = (d : Int)
            then cellAt lat (e - (d : Int))
            else claimScan lat e (d + 1) r := rfl
    rw [hstep]
    by_cases h1 : cellAt lat (e - (d : Int)) = NSEMPTY
    · rw [if_neg (by rw [h1]; unfold NSEMPTY; omega),
        if_neg (by rw [h1]; unfold NSEMPTY; omega)]
      unfold movementLoop
      rw [if_pos h1, hcd]
      exact ih (d + 1) (by omega)
    · by_cases h2 : cellAt lat (e - (d : Int)) = 0
      · rw [if_pos h2]
        unfold movementLoop
        rw [if_neg h1, if_pos h2]
      · by_cases h3 : (d : Int) = cellAt lat (e - (d : Int))
        · rw [if_neg h2, if_pos ⟨by omega, h3.symm⟩]
          unfold movementLoop
          rw [if_neg h1, if_neg h2, if_pos h3]
        · rw [if_neg h2, if_neg (fun hc => h3 hc.2.symm)]
          unfold movementLoop
          rw [if_neg h1, if_neg h2, if_neg h3, hcd]
          exact ih (d + 1) (by omega)

end Lemmas

/-- C1: one full update call, the speed pass followed by the movement
pass, preserves the number of occupied cells, for every lattice whose
cells all lie in the legal domain (the empty sentinel -1 or a speed in
0..vmax). -/
theorem C1_vehicle_conservation (vmax : Nat) (slow : Nat → Bool) (lat : List Int)
    (hval : Valid vmax lat) :
    occCount (update vmax slow lat) = occCount lat := by
  rcases Nat.eq_zero_or_pos lat.length with hL | hL
  · have hnil : lat = [] := List.length_eq_zero.mp hL
    subst hnil
    rfl
  · have hmidlen : (speedPhase vmax slow lat).length = lat.length :=
      speedPhase_length vmax slow lat
    have hcard := movePhase_card_occ vmax slow lat hval hL
    have hupd : update vmax slow lat = movePhase vmax (speedPhase vmax slow lat) := rfl
    have hmidocc : occCount (speedPhase vmax slow lat) = occCount lat := by
      rw [occCount_eq_card_cellAt, occCount_eq_card_cellAt, hmidlen]
      apply congrArg
      apply Finset.filter_congr
      intro a _
      exact speedPhase_occ_iff hval hL (a : Int)
    calc occCount (update vmax slow lat)
        = ((Finset.range lat.length).filter
            (fun (e : Nat) =>
              0 ≤ cellAt (movePhase vmax (speedPhase vmax slow lat)) (e : Int))).card := by
          rw [hupd, occCount_eq_card_cellAt, movePhase_length, hmidlen]
      _ = ((Finset.range lat.length).filter
            (fun (a : Nat) => 0 ≤ cellAt (speedPhase vmax slow lat) (a : Int))).card :=
          hcard.symm
      _ = occCount (speedPhase vmax slow lat) := by
          rw [occCount_eq_card_cellAt, hmidlen]
      _ = occCount lat := hmidocc

/-- Witness for C1 on the two-vehicle lattice of the adjacency scenario. -/
theorem C1_vehicle_conservation_witness :
    occCount (update 5 (fun _ => false) [0, 0, -1, -1, -1, -1, -1, -1, -1, -1])
      = occCount [0, 0, -1, -1, -1, -1, -1, -1, -1, -1] :=
  C1_vehicle_conservation 5 (fun _ => false) [0, 0, -1, -1, -1, -1, -1, -1, -1, -1]
    (by unfold Valid; decide)

/-- C2: from a valid initial lattice, every state reachable by update
calls stays in the legal domain, including each intermediate post-speed
lattice, so every occupied cell always holds a speed between 0 and
vmax. -/
theorem C2_speed_bound_invariant (vmax : Nat) (lat : List Int) (hval : Valid vmax lat)
    (slows : Nat → Nat → Bool) (n : Nat) :
    Valid vmax (updates vmax slows n lat) ∧
      ∀ s : Nat → Bool, Valid vmax (speedPhase vmax s (updates vmax slows n lat)) := by
  have hmain := updates_valid vmax slows n lat hval
  exact ⟨hmain, fun s => speedPhase_valid vmax s _ hmain⟩

/-- Witness for C2 after three steps of the single-vehicle scenario. -/
theorem C2_speed_bound_invariant_witness :
    Valid 2 (updates 2 (fun _ _ => false) 3 [-1, -1, 1, -1, -1, -1, -1, -1, -1, -1]) ∧
      ∀ s : Nat → Bool,
        Valid 2 (speedPhase 2 s (updates 2 (fun _ _ => false) 3
          [-1, -1, 1, -1, -1, -1, -1, -1, -1, -1])) :=
  C2_speed_bound_invariant 2 [-1, -1, 1, -1, -1, -1, -1, -1, -1, -1] (by unfold Valid; decide)
    (fun _ _ => false) 3

/-- C9: the speed pass never changes which cells are occupied: an empty
cell stays empty, an occupied cell stays occupied with a legal speed, and
occupancy is unchanged at every address. -/
theorem C9_speed_phase_occupancy (vmax : Nat) (slow : Nat → Bool) (lat : List Int)
    (hval : Valid vmax lat) (i : Int) :
    (cellAt lat i = NSEMPTY → cellAt (speedPhase vmax slow lat) i = NSEMPTY) ∧
    (0 ≤ cellAt lat i →
      0 ≤ cellAt (speedPhase vmax slow lat) i ∧
        cellAt (speedPhase vmax slow lat) i ≤ (vmax : Int)) ∧
    (0 ≤ cellAt (speedPhase vmax slow lat) i ↔ 0 ≤ cellAt lat i) := by
  rcases Nat.eq_zero_or_pos lat.length with hL | hL
  · have hnil : lat = [] := List.length_eq_zero.mp hL
    subst hnil
    have h1 : cellAt ([] : List Int) i = NSEMPTY := rfl
    have h2 : speedPhase vmax slow ([] : List Int) = [] := rfl
    rw [h2]
    refine ⟨fun _ => h1, fun hc => absurd hc (by rw [h1]; unfold NSEMPTY; omega), ?_⟩
    rw [h1]
  · refine ⟨cellAt_speedPhase_empty hL, ?_, speedPhase_occ_iff hval hL i⟩
    intro hc
    exact ⟨(cellAt_speedPhase_occ hL hc).1, (cellAt_speedPhase_occ hL hc).2.1⟩

/-- Witness for C9 at the occupied address 2 of the single-vehicle
scenario. -/
theorem C9_speed_phase_occupancy_witness :
    (cellAt [-1, -1, 1, -1, -1, -1, -1, -1, -1, -1] 2 = NSEMPTY →
      cellAt (speedPhase 2 (fun _ => false) [-1, -1, 1, -1, -1, -1, -1, -1, -1, -1]) 2
        = NSEMPTY) ∧
    (0 ≤ cellAt [-1, -1, 1, -1, -1, -1, -1, -1, -1, -1] 2 →
      0 ≤ cellAt (speedPhase 2 (fun _ => false) [-1, -1, 1, -1, -1, -1, -1, -1, -1, -1]) 2 ∧
        cellAt (speedPhase 2 (fun _ => false) [-1, -1, 1, -1, -1, -1, -1, -1, -1, -1]) 2
          ≤ ((2 : Nat) : Int)) ∧
    (0 ≤ cellAt (speedPhase 2 (fun _ => false) [-1, -1, 1, -1, -1, -1, -1, -1, -1, -1]) 2 ↔
      0 ≤ cellAt [-1, -1, 1, -1, -1, -1, -1, -1, -1, -1] 2) :=
  C9_speed_phase_occupancy 2 (fun _ => false) [-1, -1, 1, -1, -1, -1, -1, -1, -1, -1]
    (by unfold Valid; decide) 2

/-- C10: the per-cell speed rule clamps any occupied value, even one
above vmax, back into the legal range 0..vmax, for any ahead table and
any random draw. -/
theorem C10_speed_range_clamp (vmax : Nat) (v : Int) (rest : List Int) (slow : Bool)
    (hv : 0 ≤ v) :
    0 ≤ newspeedRule vmax slow (v :: rest) ∧ newspeedRule vmax slow (v :: rest) ≤ (vmax : Int) :=
  ⟨(newspeedRule_occ_bounds vmax slow rest hv).1,
    (newspeedRule_occ_bounds vmax slow rest hv).2.1⟩

/-- Witness for C10 at the out-of-range occupied value 10 with vmax 5. -/
theorem C10_speed_range_clamp_witness :
    0 ≤ newspeedRule 5 true (10 :: [-1, -1, 0]) ∧
      newspeedRule 5 true (10 :: [-1, -1, 0]) ≤ ((5 : Nat) : Int) :=
  C10_speed_range_clamp 5 10 [-1, -1, 0] true (by decide)

/-- C4: for an occupied cell, the gap is the number of consecutive empty
cells ahead, nearest first, capped at vmax; the scan stops at the first
occupied cell; the rule output before the random step is
min (min (v+1) vmax) gap; and the committed new speed never exceeds the
gap, whatever the random draw. -/
theorem C4_gap_limit (vmax : Nat) (lat : List Int) (i : Int) (hL : 0 < lat.length)
    (hocc : 0 ≤ cellAt lat i) :
    gapCount (aheadCells vmax lat i) ≤ vmax ∧
    (∀ k : Nat, 1 ≤ k → k ≤ gapCount (aheadCells vmax lat i) →
      cellAt lat (i + (k : Int)) = NSEMPTY) ∧
    (gapCount (aheadCells vmax lat i) < vmax →
      cellAt lat (i + ((gapCount (aheadCells vmax lat i) : Int) + 1)) ≠ NSEMPTY) ∧
    (∀ slow : Bool,
      newspeedRule vmax slow (speedTable vmax lat i)
        = if slow
          then max (min (min (cellAt lat i + 1) (vmax : Int))
            (gapCount (aheadCells vmax lat i) : Int) - 1) 0
          else min (min (cellAt lat i + 1) (vmax : Int))
            (gapCount (aheadCells vmax lat i) : Int)) ∧
    (∀ slow : Nat → Bool,
      cellAt (speedPhase vmax slow lat) i ≤ (gapCount (aheadCells vmax lat i) : Int)) := by
  have hglen : gapCount (aheadCells vmax lat i) ≤ vmax := by
    have := gapCount_le_length (aheadCells vmax lat i)
    rwa [aheadCells_length] at this
  refine ⟨hglen, ?_, ?_, ?_, ?_⟩
  · intro k hk1 hk2
    have hgd : (aheadCells vmax lat i).getD (k - 1) 0
        = cellAt lat (i + (((k - 1 : Nat) : Int) + 1)) :=
      aheadCells_getD lat i (by omega)
    have hcast : (((k - 1 : Nat) : Int) + 1) = (k : Int) := by omega
    rw [hcast] at hgd
    rw [← hgd]
    exact getD_empty_of_lt_gapCount (by omega)
  · intro hlt
    have hgd : (aheadCells vmax lat i).getD (gapCount (aheadCells vmax lat i)) 0
        = cellAt lat (i + ((gapCount (aheadCells vmax lat i) : Int) + 1)) :=
      aheadCells_getD lat i hlt
    rw [← hgd]
    exact getD_stop_of_gapCount_lt (by rw [aheadCells_length]; exact hlt)
  · intro slow
    exact newspeedRule_occ vmax slow (aheadCells vmax lat i) hocc
  · intro slow
    exact (cellAt_speedPhase_occ hL hocc).2.2

/-- Witness for C4: vmax 5 with exactly three empty cells ahead. -/
theorem C4_gap_limit_witness :
    gapCount (aheadCells 5 [1, -1, -1, -1, 0, -1] 0) ≤ 5 ∧
    (∀ k : Nat, 1 ≤ k → k ≤ gapCount (aheadCells 5 [1, -1, -1, -1, 0, -1] 0) →
      cellAt [1, -1, -1, -1, 0, -1] ((0 : Int) + (k : Int)) = NSEMPTY) ∧
    (gapCount (aheadCells 5 [1, -1, -1, -1, 0, -1] 0) < 5 →
      cellAt [1, -1, -1, -1, 0, -1]
        ((0 : Int) + ((gapCount (aheadCells 5 [1, -1, -1, -1, 0, -1] 0) : Int) + 1))
        ≠ NSEMPTY) ∧
    (∀ slow : Bool,
      newspeedRule 5 slow (speedTable 5 [1, -1, -1, -1, 0, -1] 0)
        = if slow
          then max (min (min (cellAt [1, -1, -1, -1, 0, -1] 0 + 1) ((5 : Nat) : Int))
            (gapCount (aheadCells 5 [1, -1, -1, -1, 0, -1] 0) : Int) - 1) 0
          else min (min (cellAt [1, -1, -1, -1, 0, -1] 0 + 1) ((5 : Nat) : Int))
            (gapCount (aheadCells 5 [1, -1, -1, -1, 0, -1] 0) : Int)) ∧
    (∀ slow : Nat → Bool,
      cellAt (speedPhase 5 slow [1, -1, -1, -1, 0, -1]) 0
        ≤ (gapCount (aheadCells 5 [1, -1, -1, -1, 0, -1] 0) : Int)) :=
  C4_gap_limit 5 [1, -1, -1, -1, 0, -1] 0 (by decide) (by decide)

/-- C5: the movement pass computes at every address exactly the behavior
the spec describes: speed 0 unchanged, positive speed vacates, and an
empty cell runs the nearest-first behind scan with the distance counter
starting at 1, landing a predecessor whose positive speed equals the
distance, stopping at a speed-0 predecessor, and staying empty when the
radius is exhausted. -/
theorem C5_movement_rule_refinement (vmax : Nat) (lat : List Int)
    (hval : ∀ c ∈ lat, c = NSEMPTY ∨ 0 ≤ c) (hL : 0 < lat.length) (e : Int) :
    cellAt (movePhase vmax lat) e = claimMove vmax lat e := by
  rw [cellAt_movePhase vmax lat hL e]
  unfold moveTable claimMove
  simp only [movementRule]
  by_cases h0 : cellAt lat e = 0
  · rw [if_pos h0, if_pos h0]
  · rw [if_neg h0, if_neg h0]
    by_cases hp : 0 < cellAt lat e
    · rw [if_pos hp, if_pos hp]
    · rw [if_neg hp, if_neg hp]
      have hemp : cellAt lat e = NSEMPTY := by
        rcases cellAt_mem_or_empty lat e with h | h
        · exact h
        · rcases hval _ h with h' | h'
          · exact h'
          · omega
      rw [hemp]
      unfold movementLoop
      rw [if_pos rfl]
      have hbehind : behindCells vmax lat e
          = (List.range vmax).map (fun (k : Nat) => cellAt lat (e - ((1 + k : Nat) : Int))) := by
        unfold behindCells
        apply map_range_ext
        intro k _
        have harg : ((k : Int) + 1) = ((1 + k : Nat) : Int) := by push_cast; ring
        rw [harg]
      rw [hbehind]
      have h01 : (0 : Int) + 1 = ((1 : Nat) : Int) := by norm_num
      rw [h01]
      exact movementLoop_eq_claimScan lat e vmax 1 le_rfl

/-- Witness for C5 at the cell behind a moving vehicle in the adjacency
scenario, after its speed pass. -/
theorem C5_movement_rule_refinement_witness :
    cellAt (movePhase 5 [0, 1, -1, -1, -1, -1, -1, -1, -1, -1]) 2
      = claimMove 5 [0, 1, -1, -1, -1, -1, -1, -1, -1, -1] 2 :=
  C5_movement_rule_refinement 5 [0, 1, -1, -1, -1, -1, -1, -1, -1, -1]
    (by decide) (by decide) 2

/-- C6: across one update, a vehicle never lands at or beyond the
position reached by the vehicle ahead of it: with the next vehicle at
distance d, the rear moves strictly less than d, both landing offsets
stay below the ring length, the rear offset stays strictly below the
front offset, and both vehicles are found at those landing addresses. -/
theorem C6_no_overtaking (vmax : Nat) (slow : Nat → Bool) (lat : List Int)
    (hval : Valid vmax lat) (a d : Nat) (haL : a < lat.length) (hd1 : 1 ≤ d)
    (hdL : d < lat.length) (hra : 0 ≤ cellAt lat (a : Int))
    (hrb : 0 ≤ cellAt lat ((a : Int) + (d : Int)))
    (hbetween : ∀ k : Nat, 1 ≤ k → k < d → cellAt lat ((a : Int) + (k : Int)) = NSEMPTY) :
    0 ≤ cellAt (speedPhase vmax slow lat) (a : Int) ∧
    0 ≤ cellAt (speedPhase vmax slow lat) ((a : Int) + (d : Int)) ∧
    cellAt (speedPhase vmax slow lat) (a : Int) < (d : Int) ∧
    (d : Int) + cellAt (speedPhase vmax slow lat) ((a : Int) + (d : Int)) < (lat.length : Int) ∧
    cellAt (speedPhase vmax slow lat) (a : Int)
      < (d : Int) + cellAt (speedPhase vmax slow lat) ((a : Int) + (d : Int)) ∧
    cellAt (update vmax slow lat) ((a : Int) + cellAt (speedPhase vmax slow lat) (a : Int))
      = cellAt (speedPhase vmax slow lat) (a : Int) ∧
    cellAt (update vmax slow lat)
        ((a : Int) + (d : Int) + cellAt (speedPhase vmax slow lat) ((a : Int) + (d : Int)))
      = cellAt (speedPhase vmax slow lat) ((a : Int) + (d : Int)) := by
  have hL : 0 < lat.length := by omega
  have h1 : 0 ≤ cellAt (speedPhase vmax slow lat) (a : Int) :=
    (cellAt_speedPhase_occ hL hra).1
  have h2 : 0 ≤ cellAt (speedPhase vmax slow lat) ((a : Int) + (d : Int)) :=
    (cellAt_speedPhase_occ hL hrb).1
  have hv1d : cellAt (speedPhase vmax slow lat) (a : Int) < (d : Int) := by
    by_cases hcmp : d ≤ vmax
    · have hgd : (aheadCells vmax lat (a : Int)).getD (d - 1) 0
          = cellAt lat ((a : Int) + (((d - 1 : Nat) : Int) + 1)) :=
        aheadCells_getD lat (a : Int) (by omega)
      have hcast : (((d - 1 : Nat) : Int) + 1) = (d : Int) := by omega
      rw [hcast] at hgd
      have hne : (aheadCells vmax lat (a : Int)).getD (d - 1) 0 ≠ NSEMPTY := by
        rw [hgd]
        unfold NSEMPTY
        omega
      have hgap : gapCount (aheadCells vmax lat (a : Int)) ≤ d - 1 :=
        gapCount_le_of_getD_ne (by rw [aheadCells_length]; omega) hne
      have hle := (@cellAt_speedPhase_occ vmax slow lat hL (a : Int) hra).2.2
      have hcast2 : (gapCount (aheadCells vmax lat (a : Int)) : Int) ≤ ((d - 1 : Nat) : Int) := by
        exact_mod_cast hgap
      omega
    · have hle := (@cellAt_speedPhase_occ vmax slow lat hL (a : Int) hra).2.1
      omega
  have hv2L : (d : Int) + cellAt (speedPhase vmax slow lat) ((a : Int) + (d : Int))
      < (lat.length : Int) := by
    by_cases hcmp : lat.length - d ≤ vmax
    · have hgd : (aheadCells vmax lat ((a : Int) + (d : Int))).getD (lat.length - d - 1) 0
          = cellAt lat (((a : Int) + (d : Int)) + (((lat.length - d - 1 : Nat) : Int) + 1)) :=
        aheadCells_getD lat _ (by omega)
      have hcast : ((a : Int) + (d : Int)) + (((lat.length - d - 1 : Nat) : Int) + 1)
          = (a : Int) + (lat.length : Int) := by omega
      rw [hcast, cellAt_add_length] at hgd
      have hne : (aheadCells vmax lat ((a : Int) + (d : Int))).getD (lat.length - d - 1) 0
          ≠ NSEMPTY := by
        rw [hgd]
        unfold NSEMPTY
        omega
      have hgap : gapCount (aheadCells vmax lat ((a : Int) + (d : Int))) ≤ lat.length - d - 1 :=
        gapCount_le_of_getD_ne (by rw [aheadCells_length]; omega) hne
      have hle := (@cellAt_speedPhase_occ vmax slow lat hL ((a : Int) + (d : Int)) hrb).2.2
      have hcast2 : (gapCount (aheadCells vmax lat ((a : Int) + (d : Int))) : Int)
          ≤ ((lat.length - d - 1 : Nat) : Int) := by
        exact_mod_cast hgap
      omega
    · have hle := (@cellAt_speedPhase_occ vmax slow lat hL ((a : Int) + (d : Int)) hrb).2.1
      omega
  have hG : GapOK vmax (speedPhase vmax slow lat) := speedPhase_gapOK vmax slow lat hval
  have hLmid : 0 < (speedPhase vmax slow lat).length := by
    rw [speedPhase_length]
    exact hL
  have hupd : update vmax slow lat = movePhase vmax (speedPhase vmax slow lat) := rfl
  refine ⟨h1, h2, hv1d, hv2L, by omega, ?_, ?_⟩
  · rw [hupd]
    exact cellAt_movePhase_dest hG hLmid (a : Int) h1
  · rw [hupd]
    exact cellAt_movePhase_dest hG hLmid ((a : Int) + (d : Int)) h2

/-- Witness for C6 on the adjacency scenario: rear vehicle at address 0,
front vehicle one cell ahead. -/
theorem C6_no_overtaking_witness :
    0 ≤ cellAt (speedPhase 5 (fun _ => false) [0, 0, -1, -1, -1, -1, -1, -1, -1, -1])
        ((0 : Nat) : Int) ∧
    0 ≤ cellAt (speedPhase 5 (fun _ => false) [0, 0, -1, -1, -1, -1, -1, -1, -1, -1])
        (((0 : Nat) : Int) + ((1 : Nat) : Int)) ∧
    cellAt (speedPhase 5 (fun _ => false) [0, 0, -1, -1, -1, -1, -1, -1, -1, -1])
        ((0 : Nat) : Int) < ((1 : Nat) : Int) ∧
    ((1 : Nat) : Int) + cellAt (speedPhase 5 (fun _ => false)
        [0, 0, -1, -1, -1, -1, -1, -1, -1, -1]) (((0 : Nat) : Int) + ((1 : Nat) : Int))
      < (([0, 0, -1, -1, -1, -1, -1, -1, -1, -1] : List Int).length : Int) ∧
    cellAt (speedPhase 5 (fun _ => false) [0, 0, -1, -1, -1, -1, -1, -1, -1, -1])
        ((0 : Nat) : Int)
      < ((1 : Nat) : Int) + cellAt (speedPhase 5 (fun _ => false)
          [0, 0, -1, -1, -1, -1, -1, -1, -1, -1]) (((0 : Nat) : Int) + ((1 : Nat) : Int)) ∧
    cellAt (update 5 (fun _ => false) [0, 0, -1, -1, -1, -1, -1, -1, -1, -1])
        (((0 : Nat) : Int) + cellAt (speedPhase 5 (fun _ => false)
          [0, 0, -1, -1, -1, -1, -1, -1, -1, -1]) ((0 : Nat) : Int))
      = cellAt (speedPhase 5 (fun _ => false) [0, 0, -1, -1, -1, -1, -1, -1, -1, -1])
        ((0 : Nat) : Int) ∧
    cellAt (update 5 (fun _ => false) [0, 0, -1, -1, -1, -1, -1, -1, -1, -1])
        (((0 : Nat) : Int) + ((1 : Nat) : Int) + cellAt (speedPhase 5 (fun _ => false)
          [0, 0, -1, -1, -1, -1, -1, -1, -1, -1]) (((0 : Nat) : Int) + ((1 : Nat) : Int)))
      = cellAt (speedPhase 5 (fun _ => false) [0, 0, -1, -1, -1, -1, -1, -1, -1, -1])
        (((0 : Nat) : Int) + ((1 : Nat) : Int)) :=
  C6_no_overtaking 5 (fun _ => false) [0, 0, -1, -1, -1, -1, -1, -1, -1, -1]
    (by unfold Valid; decide) 0 1 (by decide) (by decide) (by decide) (by decide) (by decide)
    (by intro k hk1 hk2; omega)

/-- C7: the single-vehicle scenario: road length 10, vmax 2, no random
slowdown, one vehicle of speed 1 at address 2; after one update the
lattice holds exactly one vehicle of speed 2 at address 4. -/
theorem C7_single_vehicle_scenario :
    update 2 (fun _ => false) [-1, -1, 1, -1, -1, -1, -1, -1, -1, -1]
      = [-1, -1, -1, -1, 2, -1, -1, -1, -1, -1] := by
  decide

/-- C8 counterexample: with vehicles of speed 0 at addresses 0 and 1 and
no random slowdown, the lattice does not stay unchanged after one
update, contrary to the claim that both vehicles remain at addresses 0
and 1 with speed 0. -/
theorem C8_adjacent_vehicles_counterexample :
    update 5 (fun _ => false) [0, 0, -1, -1, -1, -1, -1, -1, -1, -1]
      ≠ [0, 0, -1, -1, -1, -1, -1, -1, -1, -1] := by
  decide

/-- C8 amended: the vehicle at address 0 is the rear one; it computes gap
0 and stays at address 0 with speed 0, while the vehicle at address 1
has open road ahead, accelerates to speed 1 and moves to address 2. -/
theorem C8_adjacent_vehicles_amended :
    update 5 (fun _ => false) [0, 0, -1, -1, -1, -1, -1, -1, -1, -1]
      = [0, -1, 1, -1, -1, -1, -1, -1, -1, -1] := by
  decide

/-- C3 counterexample: constructing the automaton with p = 2, outside
the interval from 0 to 1, succeeds; no configuration error is raised,
contrary to the claim that construction rejects such parameters. -/
theorem C3_construction_counterexample :
    (NaschAutomaton.init 10 5 2).isSome = true := rfl

/-- C3 amended: the constructor performs no parameter validation at all;
construction succeeds for every size, vmax and p, and never raises a
configuration error. -/
theorem C3_construction_no_validation (size : Nat) (vmax : Int) (p : ℚ) :
    (NaschAutomaton.init size vmax p).isSome = true := rfl

end NaSch
